import Mathlib

/-!
Verification of the mask-editor coordinate-transform and compositing pipeline.

The definitions below are a shallow embedding of the repository code:
* `displayTransform` embeds the scale/draw/offset computation of
  `resizeCanvases` and `generateMaskDataUrl` (client app).
* `generateMask` embeds the native-mask rasterization loop of
  `generateMaskDataUrl`.
* `saveMask` embeds the `save-mask` tool handler (server.ts).
* `applyMaskCore` embeds the `apply-mask` tool handler (server.ts).
* `confirmClick` embeds the confirm-button click handler (client app).

JavaScript numbers are modelled by exact rationals (`ℚ`); `Math.round` is
`⌊q + 1/2⌋`, which is its semantics on these values.  Where IEEE special
values matter (division by zero), the separate `JsNum` type models
`Infinity`/`NaN` explicitly.
-/

namespace MaskEditor

/-- JavaScript `Math.round`: round half towards positive infinity. -/
def jsRound (q : ℚ) : ℤ := ⌊q + 1/2⌋

/-- The fitted, centered rectangle describing where the native image is drawn
within the viewport.  Mirrors the values computed in `resizeCanvases`
(and recomputed identically in `generateMaskDataUrl`). -/
structure DisplayRect where
  scale : ℚ
  drawW : ℤ
  drawH : ℤ
  offsetX : ℤ
  offsetY : ℤ
deriving DecidableEq, Repr

/-- Embeds the display-transform computation from `resizeCanvases`:
`scale = Math.min(wrapperW/imgW, wrapperH/imgH, 1)`,
`drawW = Math.round(imgW*scale)`, `drawH = Math.round(imgH*scale)`,
`offsetX = Math.round((wrapperW-drawW)/2)`, `offsetY` likewise. -/
def displayTransform (imgW imgH wrapW wrapH : ℕ) : DisplayRect :=
  let scale : ℚ := min ((wrapW : ℚ) / imgW) (min ((wrapH : ℚ) / imgH) 1)
  let drawW := jsRound ((imgW : ℚ) * scale)
  let drawH := jsRound ((imgH : ℚ) * scale)
  { scale := scale
    drawW := drawW
    drawH := drawH
    offsetX := jsRound (((wrapW : ℚ) - (drawW : ℚ)) / 2)
    offsetY := jsRound (((wrapH : ℚ) - (drawH : ℚ)) / 2) }

/-! ## Mask rasterization (`generateMaskDataUrl`, client app)

The painted display-space mask is the RGBA buffer returned by
`maskCtx.getImageData(0, 0, wrapperW, wrapperH)`, modelled as a flat byte
buffer `maskBuf : ℕ → ℕ` indexed exactly as in the code
(`(displayY * wrapperW + displayX) * 4 + 3` for the alpha byte).
The output buffer of `tempCtx.getImageData` after the black `fillRect` is
`(0,0,0,255)` at every pixel; the double loop then writes `(255,255,255,255)`
at every selected native pixel. -/

/-- The per-pixel selection test of the rasterization loop: the native pixel
`(x,y)` maps to display coordinates via `Math.round(x*scale+offsetX)` and is
selected when those fall inside the viewport and the painted mask has
non-zero alpha there. -/
def paintedSel (maskBuf : ℕ → ℕ) (imgW imgH wrapW wrapH x y : ℕ) : Bool :=
  let r := displayTransform imgW imgH wrapW wrapH
  let dx := jsRound ((x : ℚ) * r.scale + (r.offsetX : ℚ))
  let dy := jsRound ((y : ℚ) * r.scale + (r.offsetY : ℚ))
  decide (0 ≤ dx) && decide (dx < (wrapW : ℤ)) && decide (0 ≤ dy) &&
    decide (dy < (wrapH : ℤ)) &&
    decide (0 < maskBuf ((dy.toNat * wrapW + dx.toNat) * 4 + 3))

/-- Writing the four bytes `255` of a white RGBA pixel starting at `idx`. -/
def writeWhite (buf : ℕ → ℕ) (idx : ℕ) : ℕ → ℕ :=
  fun j => if j = idx ∨ j = idx + 1 ∨ j = idx + 2 ∨ j = idx + 3 then 255 else buf j

/-- The buffer after `fillStyle = "#000000"; fillRect(...)`: opaque black
everywhere. -/
def blackOpaque : ℕ → ℕ := fun j => if j % 4 = 3 then 255 else 0

/-- One iteration of the rasterization loop body at native pixel `p`. -/
def rasterStep (maskBuf : ℕ → ℕ) (imgW imgH wrapW wrapH : ℕ)
    (buf : ℕ → ℕ) (p : ℕ × ℕ) : ℕ → ℕ :=
  if paintedSel maskBuf imgW imgH wrapW wrapH p.1 p.2 then
    writeWhite buf ((p.2 * imgW + p.1) * 4)
  else buf

/-- The (x,y) iteration order of the nested loops (`y` outer, `x` inner). -/
def pixelList (w h : ℕ) : List (ℕ × ℕ) :=
  (List.range h).flatMap (fun y => (List.range w).map (fun x => (x, y)))

/-- Embeds the native-mask construction of `generateMaskDataUrl`: black fill,
then for every native pixel in row-major order, write opaque white when the
mapped display pixel was painted. -/
def generateMask (maskBuf : ℕ → ℕ) (imgW imgH wrapW wrapH : ℕ) : ℕ → ℕ :=
  (pixelList imgW imgH).foldl (rasterStep maskBuf imgW imgH wrapW wrapH) blackOpaque

/-- Whether the loop iteration at pixel `p` writes byte `j`. -/
def touchesByte (maskBuf : ℕ → ℕ) (imgW imgH wrapW wrapH j : ℕ) (p : ℕ × ℕ) : Bool :=
  paintedSel maskBuf imgW imgH wrapW wrapH p.1 p.2 &&
    decide (j = (p.2 * imgW + p.1) * 4 ∨ j = (p.2 * imgW + p.1) * 4 + 1 ∨
      j = (p.2 * imgW + p.1) * 4 + 2 ∨ j = (p.2 * imgW + p.1) * 4 + 3)

/-- The selection condition of claim C1, spelled from the spec: the display
coordinate `(round(x*scale+offsetX), round(y*scale+offsetY))` lies within
`[0,Wv)×[0,Hv)` and the painted mask has non-zero alpha at that coordinate. -/
def selSpec (maskBuf : ℕ → ℕ) (imgW imgH wrapW wrapH x y : ℕ) : Prop :=
  let r := displayTransform imgW imgH wrapW wrapH
  let dx := jsRound ((x : ℚ) * r.scale + (r.offsetX : ℚ))
  let dy := jsRound ((y : ℚ) * r.scale + (r.offsetY : ℚ))
  0 ≤ dx ∧ dx < (wrapW : ℤ) ∧ 0 ≤ dy ∧ dy < (wrapH : ℤ) ∧
    0 < maskBuf ((dy.toNat * wrapW + dx.toNat) * 4 + 3)

instance selSpecDecidable (maskBuf : ℕ → ℕ) (imgW imgH wrapW wrapH x y : ℕ) :
    Decidable (selSpec maskBuf imgW imgH wrapW wrapH x y) := by
  unfold selSpec; infer_instance

/-! ## Degenerate dimensions (`resizeCanvases` under IEEE special values)

`resizeCanvases` has no guard for zero dimensions.  In JavaScript a zero
divisor does not fault: `a/0` is `Infinity` for `a > 0` and `NaN` for
`a = 0`, `Math.min` propagates `NaN`, and `0 * Infinity` is `NaN`.
`JsNum` extends the exact rational model with these two special values so
the zero-dimension behaviour of the untouched code can be analysed. -/

/-- A JavaScript number arising in the display transform: a finite value,
positive infinity, or NaN (negative values never arise here). -/
inductive JsNum where
  | fin : ℚ → JsNum
  | inf : JsNum
  | nan : JsNum
deriving DecidableEq, Repr

/-- JavaScript division of two non-negative integers. -/
def jsDivNN (a b : ℕ) : JsNum :=
  if b = 0 then (if a = 0 then JsNum.nan else JsNum.inf) else JsNum.fin ((a : ℚ) / b)

/-- Binary `Math.min` on these values: NaN absorbs, `Infinity` is the top. -/
def jsMin2 : JsNum → JsNum → JsNum
  | JsNum.nan, _ => JsNum.nan
  | _, JsNum.nan => JsNum.nan
  | JsNum.inf, x => x
  | x, JsNum.inf => x
  | JsNum.fin a, JsNum.fin b => JsNum.fin (min a b)

/-- Multiplication of a non-negative integer by such a value
(`0 * Infinity = NaN` in JavaScript). -/
def jsMulNat (n : ℕ) : JsNum → JsNum
  | JsNum.nan => JsNum.nan
  | JsNum.inf => if n = 0 then JsNum.nan else JsNum.inf
  | JsNum.fin q => JsNum.fin ((n : ℚ) * q)

/-- JavaScript `Math.round` lifted to these values. -/
def jsRoundNum : JsNum → JsNum
  | JsNum.fin q => JsNum.fin ((jsRound q : ℚ))
  | JsNum.inf => JsNum.inf
  | JsNum.nan => JsNum.nan

/-- The scale and draw dimensions of `resizeCanvases` computed without any
positivity assumption, under the IEEE special-value semantics. -/
structure DisplayRectJs where
  scale : JsNum
  drawW : JsNum
  drawH : JsNum
deriving DecidableEq, Repr

/-- Embeds `scale = Math.min(wrapperW/imgW, wrapperH/imgH, 1)`,
`drawW = Math.round(imgW*scale)`, `drawH = Math.round(imgH*scale)` from
`resizeCanvases`, with JavaScript division-by-zero semantics. -/
def displayTransformJs (imgW imgH wrapW wrapH : ℕ) : DisplayRectJs :=
  let scale := jsMin2 (jsDivNN wrapW imgW) (jsMin2 (jsDivNN wrapH imgH) (JsNum.fin 1))
  { scale := scale
    drawW := jsRoundNum (jsMulNat imgW scale)
    drawH := jsRoundNum (jsMulNat imgH scale) }

/-! ## Editor session state (client app)

The ambient mutable variables of the client app (`loadedImage`,
`hasMaskContent`, `originalFileName`, the painted mask canvas and the
wrapper dimensions) are made an explicit state record.  The status bar
(`setStatus`) is kept separate from the session state, since it is the
user-facing surface rather than session data. -/

/-- The ambient client-side session state read by the confirm handler. -/
structure EditorState where
  loadedImage : Option (ℕ × ℕ)
  wrapW : ℕ
  wrapH : ℕ
  maskBuf : ℕ → ℕ
  hasMaskContent : Bool
  originalFileName : String

/-- The status bar written by `setStatus(msg, type)`. -/
structure StatusBar where
  msg : String
  kind : String
deriving DecidableEq, Repr

/-- The arguments of the `save-mask` server call issued on confirm.  The
mask travels as a PNG data URL produced by `canvas.toDataURL` from the
rasterized buffer; the encoding is an external codec, so the call records
the rasterized buffer itself. -/
structure SaveMaskCall where
  maskPixels : ℕ → ℕ
  originalFileName : String

/-- Embeds `generateMaskDataUrl` as an explicit-state computation: it throws
when no image is loaded, and otherwise reads the painted mask and ambient
dimensions without writing any ambient variable (all its drawing happens on
a local temporary canvas), so it returns the state unchanged. -/
def generateMaskRun (s : EditorState) : Except String ((ℕ → ℕ) × EditorState) :=
  match s.loadedImage with
  | none => Except.error "No image loaded"
  | some (w, h) => Except.ok (generateMask s.maskBuf w h s.wrapW s.wrapH, s)

/-- Embeds the confirm-button click handler up to the server boundary:
`if (!loadedImage || !hasMaskContent)` surfaces an error status and returns
without any server call; otherwise the mask is generated and a `save-mask`
call is issued (the status then shown depends on the transport, which is an
external collaborator). -/
def confirmClick (s : EditorState) : EditorState × StatusBar × Option SaveMaskCall :=
  match s.loadedImage with
  | none => (s, { msg := "Paint a selection on the image first", kind := "error" }, none)
  | some (w, h) =>
    if s.hasMaskContent = false then
      (s, { msg := "Paint a selection on the image first", kind := "error" }, none)
    else
      (s, { msg := "Sending mask to server...", kind := "" },
        some { maskPixels := generateMask s.maskBuf w h s.wrapW s.wrapH
               originalFileName := s.originalFileName })

/-! ## The `save-mask` tool handler (server.ts)

`maskDataUrl` is validated by the regular expression
`/^data:image\\/(\\w+);base64,(.+)$/` (JavaScript semantics: `\\w` is
`[A-Za-z0-9_]`, `.` excludes line terminators, `$` is the end of the
string).  Since `;` is not a word character the match is equivalent to the
deterministic scan below.  File-system effects (`fs.mkdir`,
`fs.writeFile`) are recorded in the outcome; `Buffer.from(payload,
"base64")` is an external total decoder passed as a parameter, and
`Date.now()` is the `now` parameter. -/

/-- JavaScript regex `\\w`: ASCII letters, digits and underscore. -/
def isWordChar (c : Char) : Bool := c.isAlphanum || c = '_'

/-- JavaScript line terminators, which `.` does not match. -/
def isLineTerm (c : Char) : Bool :=
  c = '\n' || c = '\r' || c = '\u2028' || c = '\u2029'

/-- Embeds the match of `/^data:image\\/(\\w+);base64,(.+)$/`, returning the
two capture groups `(ext, payload)` on success. -/
def dataUrlMatch (s : String) : Option (String × String) :=
  let cs := s.data
  let head := "data:image/".data
  if cs.take head.length = head then
    let rest := cs.drop head.length
    let ext := rest.takeWhile isWordChar
    let rest2 := rest.drop ext.length
    let sep := ";base64,".data
    if ext.length ≠ 0 ∧ rest2.take sep.length = sep then
      let payload := rest2.drop sep.length
      if payload.length ≠ 0 ∧ payload.all (fun c => ! isLineTerm c) then
        some (ext.asString, payload.asString)
      else none
    else none
  else none

/-- Trailing-slash trimming of Node `path.parse` (POSIX). -/
def trailTrim (cs : List Char) : List Char :=
  (cs.reverse.dropWhile (fun c => c = '/')).reverse

/-- The basename part (after the last remaining slash) of Node `path.parse`. -/
def baseNamePart (cs : List Char) : List Char :=
  ((trailTrim cs).reverse.takeWhile (fun c => c ≠ '/')).reverse

/-- The `name` component of Node `path.parse` on a basename: everything
before the extension, where the extension starts at the rightmost dot
unless there is none, it is the leading character, or the basename is
exactly `..`. -/
def extSplitName (base : List Char) : List Char :=
  if base = ['.', '.'] then base
  else
    let afterDot := base.reverse.takeWhile (fun c => c ≠ '.')
    if afterDot.length = base.length then base
    else if afterDot.length + 1 = base.length then base
    else base.take (base.length - afterDot.length - 1)

/-- Embeds `path.parse(originalFileName).name` (Node, POSIX rules). -/
def nodeParseName (s : String) : String :=
  (extSplitName (baseNamePart s.data)).asString

/-- The observable outcome of one `save-mask` call: directories created,
files written, and the structured result fields. -/
structure SaveOutcome where
  mkdirs : List String
  writes : List (String × List ℕ)
  status : String
  filePath : String
  isError : Bool
deriving DecidableEq, Repr

/-- Embeds the `save-mask` handler: `fs.mkdir(OUTPUT_DIR, recursive)` runs
first; a failed regex match returns the structured error result without
writing; otherwise the payload is base64-decoded and written to
`OUTPUT_DIR/<baseName>_mask_<Date.now()>.<ext>`, where `baseName` is
`path.parse(originalFileName).name` when `originalFileName` is truthy
(JavaScript: `undefined` and `""` are both falsy) and `"mask"` otherwise. -/
def saveMask (outDir : String) (fromBase64 : String → List ℕ)
    (maskDataUrl : String) (originalFileName : Option String) (now : ℕ) : SaveOutcome :=
  match dataUrlMatch maskDataUrl with
  | none =>
    { mkdirs := [outDir], writes := [], status := "error", filePath := "", isError := true }
  | some (ext, payload) =>
    let buffer := fromBase64 payload
    let baseName :=
      match originalFileName with
      | some n => if n = "" then "mask" else nodeParseName n
      | none => "mask"
    let fileName := baseName ++ "_mask_" ++ toString now ++ "." ++ ext
    let filePath := outDir ++ "/" ++ fileName
    { mkdirs := [outDir], writes := [(filePath, buffer)], status := "saved",
      filePath := filePath, isError := false }

/-! ## The `apply-mask` tool handler (server.ts)

The handler strips an optional data-URL prefix from both inputs
(`b64.replace(/^data:image\\/\\w+;base64,/, "")`), decodes the image to raw
RGBA and the mask to a grayscale buffer resized to the image dimensions
(external `sharp` operations, passed in as `SharpEnv`), overwrites every
pixel alpha with the mask intensity, and re-encodes.  the raw-buffer
constructor of `sharp` rejects a buffer whose size is not `width*height*channels`
(modelled from `InvalidEncoding` in the spec; the constructor itself is not
in src/), and a rejected promise from the handler is returned by the MCP
framework as a structured `isError` tool result (modelled from the
error-propagation policy of the spec; the framework is not in src/). -/

/-- The base64 alphabet (including the `=` padding). -/
def isBase64Char (c : Char) : Bool := c.isAlphanum || c = '+' || c = '/' || c = '='

/-- The match of `/^data:image\\/\\w+;base64,/` against a character list,
returning the remainder after the matched prefix. -/
def stripHeadMatch (cs : List Char) : Option (List Char) :=
  let head := "data:image/".data
  if cs.take head.length = head then
    let rest := cs.drop head.length
    let ext := rest.takeWhile isWordChar
    let rest2 := rest.drop ext.length
    let sep := ";base64,".data
    if ext.length ≠ 0 ∧ rest2.take sep.length = sep then some (rest2.drop sep.length)
    else none
  else none

/-- Embeds the helper `stripPrefix` of the handler: `replace` with an anchored regex
returns the remainder on a match and the input unchanged otherwise. -/
def stripDataUrlHead (s : String) : String :=
  match stripHeadMatch s.data with
  | some rest => rest.asString
  | none => s

/-- Embeds the alpha-overwrite loop
`for (i = 0; i < width*height; i++) imageData[i*4+3] = maskData[i]`
(out-of-range typed-array reads give `undefined`, which stores as 0). -/
def applyAlphaLoop (maskData : List ℕ) : ℕ → List ℕ → List ℕ
  | 0, buf => buf
  | n + 1, buf => (applyAlphaLoop maskData n buf).set (n * 4 + 3) (maskData.getD n 0)

/-- The external `sharp` codec capabilities used by the handler, plus the
base64 decoder `Buffer.from(·, "base64")`: metadata extraction, RGBA decode,
grayscale decode resized to given dimensions, and PNG encoding of a raw
buffer. -/
structure SharpEnv where
  fromBase64 : String → List ℕ
  meta : List ℕ → Option (ℕ × ℕ)
  rgba : List ℕ → Option (List ℕ)
  grayResized : List ℕ → ℕ → ℕ → Option (List ℕ)
  pngEncode : List ℕ → ℕ → ℕ → List ℕ

/-- The `apply-mask` handler body after prefix stripping.  A decode failure
is a rejected promise, modelled as `Except.error`; the final `sharp(raw)`
constructor checks the buffer size. -/
def applyMaskCore (env : SharpEnv) (imageB64 maskB64 : String) : Except String (List ℕ) :=
  let imageBuffer := env.fromBase64 imageB64
  let maskBuffer := env.fromBase64 maskB64
  match env.meta imageBuffer with
  | none => Except.error "image decode failed"
  | some (w, h) =>
    match env.rgba imageBuffer with
    | none => Except.error "image decode failed"
    | some imageData =>
      match env.grayResized maskBuffer w h with
      | none => Except.error "mask decode failed"
      | some maskData =>
        let outData := applyAlphaLoop maskData (w * h) imageData
        if outData.length = w * h * 4 then Except.ok (env.pngEncode outData w h)
        else Except.error "InvalidEncoding"

/-- The full `apply-mask` handler: strip optional data-URL prefixes, then
run the compositing body. -/
def applyMaskTool (env : SharpEnv) (image mask : String) : Except String (List ℕ) :=
  applyMaskCore env (stripDataUrlHead image) (stripDataUrlHead mask)

/-- The structured tool result seen by the caller. -/
structure ToolResult where
  isError : Bool
  output : Option (List ℕ)
deriving DecidableEq, Repr

/-- Modelled from the spec: the MCP framework converts a rejected handler
promise into a structured error result instead of crashing, so callers can
distinguish "accepted but failed" from transport failure. -/
def applyMaskCall (env : SharpEnv) (image mask : String) : ToolResult :=
  match applyMaskTool env image mask with
  | Except.ok r => { isError := false, output := some r }
  | Except.error _ => { isError := true, output := none }

/-- A concrete environment whose decoders always fail (used by witnesses). -/
def failEnv : SharpEnv :=
  { fromBase64 := fun _ => []
    meta := fun _ => none
    rgba := fun _ => none
    grayResized := fun _ _ _ => none
    pngEncode := fun _ _ _ => [] }

/-! ## Properties -/

lemma jsRound_nonneg {q : ℚ} (h : 0 ≤ q) : 0 ≤ jsRound q := by
  unfold jsRound
  have : (0 : ℚ) ≤ q + 1/2 := by linarith
  exact Int.le_floor.mpr (by exact_mod_cast this)

lemma jsRound_le_nat {q : ℚ} {n : ℕ} (h : q ≤ n) : jsRound q ≤ n := by
  unfold jsRound
  have h3 : ⌊q + 1/2⌋ < (n : ℤ) + 1 := Int.floor_lt.mpr (by push_cast; linarith)
  omega

/-- C2: for positive image and viewport dimensions, the display transform
computes the fit-and-center formulas and satisfies
`scale ≤ 1`, `0 ≤ drawW ≤ Wv`, `0 ≤ drawH ≤ Hv`, `offsetX, offsetY ≥ 0`. -/
theorem displayTransform_bounds (imgW imgH wrapW wrapH : ℕ)
    (hiW : 0 < imgW) (hiH : 0 < imgH) (hvW : 0 < wrapW) (hvH : 0 < wrapH) :
    (displayTransform imgW imgH wrapW wrapH).scale
        = min ((wrapW : ℚ) / imgW) (min ((wrapH : ℚ) / imgH) 1) ∧
    (displayTransform imgW imgH wrapW wrapH).drawW
        = jsRound ((imgW : ℚ) * (displayTransform imgW imgH wrapW wrapH).scale) ∧
    (displayTransform imgW imgH wrapW wrapH).drawH
        = jsRound ((imgH : ℚ) * (displayTransform imgW imgH wrapW wrapH).scale) ∧
    (displayTransform imgW imgH wrapW wrapH).offsetX
        = jsRound (((wrapW : ℚ) - ((displayTransform imgW imgH wrapW wrapH).drawW : ℚ)) / 2) ∧
    (displayTransform imgW imgH wrapW wrapH).offsetY
        = jsRound (((wrapH : ℚ) - ((displayTransform imgW imgH wrapW wrapH).drawH : ℚ)) / 2) ∧
    (displayTransform imgW imgH wrapW wrapH).scale ≤ 1 ∧
    0 ≤ (displayTransform imgW imgH wrapW wrapH).drawW ∧
    (displayTransform imgW imgH wrapW wrapH).drawW ≤ wrapW ∧
    0 ≤ (displayTransform imgW imgH wrapW wrapH).drawH ∧
    (displayTransform imgW imgH wrapW wrapH).drawH ≤ wrapH ∧
    0 ≤ (displayTransform imgW imgH wrapW wrapH).offsetX ∧
    0 ≤ (displayTransform imgW imgH wrapW wrapH).offsetY := by
  have hiWQ : (0 : ℚ) < imgW := by exact_mod_cast hiW
  have hiHQ : (0 : ℚ) < imgH := by exact_mod_cast hiH
  have hvWQ : (0 : ℚ) ≤ wrapW := by positivity
  have hvHQ : (0 : ℚ) ≤ wrapH := by positivity
  set s : ℚ := min ((wrapW : ℚ) / imgW) (min ((wrapH : ℚ) / imgH) 1) with hs
  have hs0 : 0 ≤ s := by
    apply le_min (by positivity) (le_min (by positivity) (by norm_num))
  have hs1 : s ≤ 1 := le_trans (min_le_right _ _) (min_le_right _ _)
  have hWs : (imgW : ℚ) * s ≤ wrapW := by
    have h1 : s ≤ (wrapW : ℚ) / imgW := min_le_left _ _
    have h2 : (imgW : ℚ) * s ≤ (imgW : ℚ) * ((wrapW : ℚ) / imgW) :=
      mul_le_mul_of_nonneg_left h1 (le_of_lt hiWQ)
    have h3 : (imgW : ℚ) * ((wrapW : ℚ) / imgW) = wrapW := by field_simp
    linarith
  have hHs : (imgH : ℚ) * s ≤ wrapH := by
    have h1 : s ≤ (wrapH : ℚ) / imgH := le_trans (min_le_right _ _) (min_le_left _ _)
    have h2 : (imgH : ℚ) * s ≤ (imgH : ℚ) * ((wrapH : ℚ) / imgH) :=
      mul_le_mul_of_nonneg_left h1 (le_of_lt hiHQ)
    have h3 : (imgH : ℚ) * ((wrapH : ℚ) / imgH) = wrapH := by field_simp
    linarith
  have hdW0 : 0 ≤ jsRound ((imgW : ℚ) * s) := jsRound_nonneg (by positivity)
  have hdWle : jsRound ((imgW : ℚ) * s) ≤ wrapW := jsRound_le_nat hWs
  have hdH0 : 0 ≤ jsRound ((imgH : ℚ) * s) := jsRound_nonneg (by positivity)
  have hdHle : jsRound ((imgH : ℚ) * s) ≤ wrapH := jsRound_le_nat hHs
  refine ⟨rfl, rfl, rfl, rfl, rfl, hs1, hdW0, hdWle, hdH0, hdHle, ?_, ?_⟩
  · apply jsRound_nonneg
    have : ((jsRound ((imgW : ℚ) * s) : ℚ)) ≤ wrapW := by exact_mod_cast hdWle
    linarith
  · apply jsRound_nonneg
    have : ((jsRound ((imgH : ℚ) * s) : ℚ)) ≤ wrapH := by exact_mod_cast hdHle
    linarith

/-- Witness for C2: the scenario from the spec, a 100×50 image in a 200×200
viewport. -/
theorem displayTransform_bounds_witness :
    (0 : ℕ) < 100 ∧ (0 : ℕ) < 50 ∧ (0 : ℕ) < 200 ∧
    ((displayTransform 100 50 200 200).scale ≤ 1 ∧
      0 ≤ (displayTransform 100 50 200 200).offsetX ∧
      0 ≤ (displayTransform 100 50 200 200).offsetY) := by
  have h := displayTransform_bounds 100 50 200 200 (by decide) (by decide) (by decide) (by decide)
  exact ⟨by decide, by decide, by decide,
    h.2.2.2.2.2.1, h.2.2.2.2.2.2.2.2.2.2.1, h.2.2.2.2.2.2.2.2.2.2.2⟩

lemma foldl_rasterStep (maskBuf : ℕ → ℕ) (imgW imgH wrapW wrapH : ℕ)
    (l : List (ℕ × ℕ)) (buf : ℕ → ℕ) (j : ℕ) :
    l.foldl (rasterStep maskBuf imgW imgH wrapW wrapH) buf j =
      cond (l.any (touchesByte maskBuf imgW imgH wrapW wrapH j)) 255 (buf j) := by
  induction l generalizing buf with
  | nil => simp
  | cons p t ih =>
    simp only [List.foldl_cons, List.any_cons, ih]
    cases htp : touchesByte maskBuf imgW imgH wrapW wrapH j p with
    | true =>
      have htp2 := htp
      unfold touchesByte at htp2
      rw [Bool.and_eq_true, decide_eq_true_eq] at htp2
      obtain ⟨hsel, hmem⟩ := htp2
      have hstep : rasterStep maskBuf imgW imgH wrapW wrapH buf p j = 255 := by
        unfold rasterStep
        rw [if_pos hsel]
        simp only [writeWhite]
        rw [if_pos hmem]
      rw [hstep, Bool.true_or]
      cases t.any (touchesByte maskBuf imgW imgH wrapW wrapH j) <;> simp
    | false =>
      have hstep : rasterStep maskBuf imgW imgH wrapW wrapH buf p j = buf j := by
        by_cases hsel : paintedSel maskBuf imgW imgH wrapW wrapH p.1 p.2 = true
        · have htp2 := htp
          unfold touchesByte at htp2
          rw [hsel, Bool.true_and] at htp2
          have hmem := of_decide_eq_false htp2
          unfold rasterStep
          rw [if_pos hsel]
          simp only [writeWhite]
          rw [if_neg hmem]
        · unfold rasterStep
          rw [if_neg hsel]
      rw [hstep, Bool.false_or]

lemma mem_pixelList {w h x y : ℕ} : (x, y) ∈ pixelList w h ↔ x < w ∧ y < h := by
  simp only [pixelList, List.mem_flatMap, List.mem_map, List.mem_range]
  constructor
  · rintro ⟨y', hy', x', hx', heq⟩
    injection heq with h1 h2
    subst h1; subst h2
    exact ⟨hx', hy'⟩
  · rintro ⟨hx, hy⟩
    exact ⟨y, hy, x, hx, rfl⟩

lemma rowcol_inj {w x x' y y' : ℕ} (hx : x < w) (hx' : x' < w)
    (h : y * w + x = y' * w + x') : x = x' ∧ y = y' := by
  have hw : 0 < w := lt_of_le_of_lt (Nat.zero_le x) hx
  have hxx : x = x' := by
    have hmod : (y * w + x) % w = (y' * w + x') % w := by rw [h]
    rwa [Nat.mul_comm y w, Nat.mul_comm y' w, Nat.mul_add_mod, Nat.mul_add_mod,
      Nat.mod_eq_of_lt hx, Nat.mod_eq_of_lt hx'] at hmod
  subst hxx
  refine ⟨rfl, ?_⟩
  have h2 : y * w = y' * w := Nat.add_right_cancel h
  exact Nat.eq_of_mul_eq_mul_right hw h2

lemma touch_window {w x x' y y' c : ℕ} (hc : c < 4) (hx : x < w) (hx' : x' < w) :
    ((y * w + x) * 4 + c = (y' * w + x') * 4 ∨
      (y * w + x) * 4 + c = (y' * w + x') * 4 + 1 ∨
      (y * w + x) * 4 + c = (y' * w + x') * 4 + 2 ∨
      (y * w + x) * 4 + c = (y' * w + x') * 4 + 3) ↔ x' = x ∧ y' = y := by
  constructor
  · intro hdisj
    have key : ∀ A B k : ℕ, k < 4 → A * 4 + c = B * 4 + k → A = B := by
      intro A B k hk hEq; omega
    have hAB : y * w + x = y' * w + x' := by
      rcases hdisj with h | h | h | h
      · exact key _ _ 0 (by omega) (by omega)
      · exact key _ _ 1 (by omega) h
      · exact key _ _ 2 (by omega) h
      · exact key _ _ 3 (by omega) h
    obtain ⟨h1, h2⟩ := rowcol_inj hx hx' hAB
    exact ⟨h1.symm, h2.symm⟩
  · rintro ⟨rfl, rfl⟩
    have : ∀ B : ℕ, B * 4 + c = B * 4 ∨ B * 4 + c = B * 4 + 1 ∨
        B * 4 + c = B * 4 + 2 ∨ B * 4 + c = B * 4 + 3 := by
      intro B; omega
    exact this _

lemma any_touches (maskBuf : ℕ → ℕ) (imgW imgH wrapW wrapH x y c : ℕ)
    (hx : x < imgW) (hy : y < imgH) (hc : c < 4) :
    (pixelList imgW imgH).any
        (touchesByte maskBuf imgW imgH wrapW wrapH ((y * imgW + x) * 4 + c)) =
      paintedSel maskBuf imgW imgH wrapW wrapH x y := by
  cases hsel : paintedSel maskBuf imgW imgH wrapW wrapH x y with
  | false =>
    rw [List.any_eq_false]
    intro p hp
    obtain ⟨x', y'⟩ := p
    have hx' : x' < imgW := (mem_pixelList.mp hp).1
    simp only [touchesByte, Bool.and_eq_true, decide_eq_true_eq, not_and]
    intro hsel' hdisj
    obtain ⟨rfl, rfl⟩ := (touch_window hc hx hx').mp hdisj
    rw [hsel] at hsel'
    exact Bool.false_ne_true hsel'
  | true =>
    rw [List.any_eq_true]
    refine ⟨(x, y), mem_pixelList.mpr ⟨hx, hy⟩, ?_⟩
    simp only [touchesByte, Bool.and_eq_true, decide_eq_true_eq]
    exact ⟨hsel, (touch_window hc hx hx).mpr ⟨rfl, rfl⟩⟩

lemma generateMask_apply (maskBuf : ℕ → ℕ) (imgW imgH wrapW wrapH x y c : ℕ)
    (hx : x < imgW) (hy : y < imgH) (hc : c < 4) :
    generateMask maskBuf imgW imgH wrapW wrapH ((y * imgW + x) * 4 + c) =
      if paintedSel maskBuf imgW imgH wrapW wrapH x y = true then 255
      else if c = 3 then 255 else 0 := by
  unfold generateMask
  rw [foldl_rasterStep, any_touches maskBuf imgW imgH wrapW wrapH x y c hx hy hc]
  cases hsel : paintedSel maskBuf imgW imgH wrapW wrapH x y with
  | false =>
    have hmodc : ∀ A : ℕ, (A * 4 + c) % 4 = c := by intro A; omega
    simp only [cond_false, Bool.false_eq_true, if_false, blackOpaque, hmodc]
  | true => simp

lemma paintedSel_iff_selSpec (maskBuf : ℕ → ℕ) (imgW imgH wrapW wrapH x y : ℕ) :
    paintedSel maskBuf imgW imgH wrapW wrapH x y = true ↔
      selSpec maskBuf imgW imgH wrapW wrapH x y := by
  simp only [paintedSel, selSpec, Bool.and_eq_true, decide_eq_true_eq]
  tauto

/-- C1: the rasterized native mask marks pixel `(x,y)` opaque white iff its
rounded display coordinate is in the viewport and the painted mask has
non-zero alpha there; every other pixel is opaque black; the alpha byte is
255 at every pixel. -/
theorem rasterizer_binary (maskBuf : ℕ → ℕ) (imgW imgH wrapW wrapH x y : ℕ)
    (hx : x < imgW) (hy : y < imgH) :
    ((generateMask maskBuf imgW imgH wrapW wrapH ((y * imgW + x) * 4),
      generateMask maskBuf imgW imgH wrapW wrapH ((y * imgW + x) * 4 + 1),
      generateMask maskBuf imgW imgH wrapW wrapH ((y * imgW + x) * 4 + 2),
      generateMask maskBuf imgW imgH wrapW wrapH ((y * imgW + x) * 4 + 3))
        = (255, 255, 255, 255) ↔
      selSpec maskBuf imgW imgH wrapW wrapH x y) ∧
    (¬ selSpec maskBuf imgW imgH wrapW wrapH x y →
      (generateMask maskBuf imgW imgH wrapW wrapH ((y * imgW + x) * 4),
       generateMask maskBuf imgW imgH wrapW wrapH ((y * imgW + x) * 4 + 1),
       generateMask maskBuf imgW imgH wrapW wrapH ((y * imgW + x) * 4 + 2),
       generateMask maskBuf imgW imgH wrapW wrapH ((y * imgW + x) * 4 + 3))
        = (0, 0, 0, 255)) ∧
    generateMask maskBuf imgW imgH wrapW wrapH ((y * imgW + x) * 4 + 3) = 255 := by
  have h0 := generateMask_apply maskBuf imgW imgH wrapW wrapH x y 0 hx hy (by omega)
  have h1 := generateMask_apply maskBuf imgW imgH wrapW wrapH x y 1 hx hy (by omega)
  have h2 := generateMask_apply maskBuf imgW imgH wrapW wrapH x y 2 hx hy (by omega)
  have h3 := generateMask_apply maskBuf imgW imgH wrapW wrapH x y 3 hx hy (by omega)
  have h0' : generateMask maskBuf imgW imgH wrapW wrapH ((y * imgW + x) * 4) =
      if paintedSel maskBuf imgW imgH wrapW wrapH x y = true then 255 else 0 := by
    simpa using h0
  cases hsel : paintedSel maskBuf imgW imgH wrapW wrapH x y with
  | false =>
    have hns : ¬ selSpec maskBuf imgW imgH wrapW wrapH x y := by
      rw [← paintedSel_iff_selSpec, hsel]; simp
    rw [hsel] at h0' h1 h2 h3
    simp only [Bool.false_eq_true, if_false] at h0' h1 h2 h3
    norm_num at h1 h2 h3
    refine ⟨?_, fun _ => ?_, ?_⟩
    · constructor
      · intro hq
        exfalso
        rw [h0'] at hq
        exact absurd (congrArg Prod.fst hq) (by norm_num)
      · intro hq; exact absurd hq hns
    · rw [h0', h1, h2, h3]
    · exact h3
  | true =>
    have hsSpec : selSpec maskBuf imgW imgH wrapW wrapH x y :=
      (paintedSel_iff_selSpec maskBuf imgW imgH wrapW wrapH x y).mp hsel
    rw [hsel] at h0' h1 h2 h3
    simp only [if_true] at h0' h1 h2 h3
    refine ⟨?_, fun hns => absurd hsSpec hns, h3⟩
    constructor
    · intro _; exact hsSpec
    · intro _; rw [h0', h1, h2, h3]

/-- Witness for C1: a 2×2 image in a 2×2 viewport with an unpainted mask:
native pixel (0,0) is opaque black. -/
theorem rasterizer_binary_witness :
    ¬ selSpec (fun _ => 0) 2 2 2 2 0 0 ∧
    (generateMask (fun _ => 0) 2 2 2 2 ((0 * 2 + 0) * 4),
     generateMask (fun _ => 0) 2 2 2 2 ((0 * 2 + 0) * 4 + 1),
     generateMask (fun _ => 0) 2 2 2 2 ((0 * 2 + 0) * 4 + 2),
     generateMask (fun _ => 0) 2 2 2 2 ((0 * 2 + 0) * 4 + 3)) = (0, 0, 0, 255) := by
  have hns : ¬ selSpec (fun _ => 0) 2 2 2 2 0 0 := by
    intro h
    exact absurd h.2.2.2.2 (by norm_num)
  exact ⟨hns, (rasterizer_binary (fun _ => 0) 2 2 2 2 0 0 (by decide) (by decide)).2.1 hns⟩

/-- For positive image dimensions the special values never arise and the
`JsNum` transform agrees with the rational `displayTransform`. -/
lemma displayTransformJs_eq_fin (imgW imgH wrapW wrapH : ℕ)
    (hiW : 0 < imgW) (hiH : 0 < imgH) :
    displayTransformJs imgW imgH wrapW wrapH =
      { scale := JsNum.fin (displayTransform imgW imgH wrapW wrapH).scale
        drawW := JsNum.fin (((displayTransform imgW imgH wrapW wrapH).drawW : ℚ))
        drawH := JsNum.fin (((displayTransform imgW imgH wrapW wrapH).drawH : ℚ)) } := by
  unfold displayTransformJs displayTransform jsDivNN
  rw [if_neg (by omega : ¬ imgW = 0), if_neg (by omega : ¬ imgH = 0)]
  simp [jsMin2, jsMulNat, jsRoundNum]

/-- C8 counterexample: an image with zero height in a 100×100 viewport gets
`scale = 1` and `drawW = 10 ≠ 0`, so a zero dimension does not force
`drawW = drawH = 0`. -/
theorem displayTransformJs_zeroDim_cex :
    ¬ ((displayTransformJs 10 0 100 100).drawW = JsNum.fin 0 ∧
       (displayTransformJs 10 0 100 100).drawH = JsNum.fin 0) := by
  intro h
  have hW : (displayTransformJs 10 0 100 100).drawW = JsNum.fin 10 := by
    show jsRoundNum (jsMulNat 10 (jsMin2 (jsDivNN 100 10) (jsMin2 (jsDivNN 100 0) (JsNum.fin 1)))) = JsNum.fin 10
    norm_num [jsDivNN, jsMin2, jsMulNat, jsRoundNum, jsRound]
  rw [hW] at h
  have := h.1
  simp only [JsNum.fin.injEq] at this
  norm_num at this

/-- C8 (amended): with both image dimensions positive, a zero viewport
dimension yields `drawW = drawH = 0`; a zero image dimension zeroes only the
corresponding draw dimension (provided the computation does not hit `0/0`). -/
theorem displayTransformJs_degenerate (imgW imgH wrapW wrapH : ℕ) :
    (0 < imgW → 0 < imgH → wrapW = 0 ∨ wrapH = 0 →
      (displayTransformJs imgW imgH wrapW wrapH).drawW = JsNum.fin 0 ∧
      (displayTransformJs imgW imgH wrapW wrapH).drawH = JsNum.fin 0) ∧
    (imgW = 0 → 0 < wrapW → 0 < imgH ∨ 0 < wrapH →
      (displayTransformJs imgW imgH wrapW wrapH).drawW = JsNum.fin 0) ∧
    (imgH = 0 → 0 < wrapH → 0 < imgW ∨ 0 < wrapW →
      (displayTransformJs imgW imgH wrapW wrapH).drawH = JsNum.fin 0) := by
  refine ⟨?_, ?_, ?_⟩
  · intro hiW hiH hzero
    have hd1 : jsDivNN wrapW imgW = JsNum.fin ((wrapW : ℚ) / imgW) := by
      unfold jsDivNN; rw [if_neg (by omega)]
    have hd2 : jsDivNN wrapH imgH = JsNum.fin ((wrapH : ℚ) / imgH) := by
      unfold jsDivNN; rw [if_neg (by omega)]
    have hsc : (displayTransformJs imgW imgH wrapW wrapH).scale = JsNum.fin 0 := by
      show jsMin2 (jsDivNN wrapW imgW) (jsMin2 (jsDivNN wrapH imgH) (JsNum.fin 1)) = JsNum.fin 0
      rw [hd1, hd2]
      simp only [jsMin2, JsNum.fin.injEq]
      rcases hzero with h0 | h0
      · subst h0
        have h1 : ((0 : ℕ) : ℚ) / imgW = 0 := by norm_num
        rw [h1]
        have : (0 : ℚ) ≤ min ((wrapH : ℚ) / imgH) 1 := le_min (by positivity) (by norm_num)
        simp [min_eq_left this]
      · subst h0
        have h1 : ((0 : ℕ) : ℚ) / imgH = 0 := by norm_num
        rw [h1]
        have h2 : min (0 : ℚ) 1 = 0 := by norm_num
        rw [h2]
        have : (0 : ℚ) ≤ (wrapW : ℚ) / imgW := by positivity
        simp [min_eq_right this]
    constructor
    · show jsRoundNum (jsMulNat imgW (displayTransformJs imgW imgH wrapW wrapH).scale) = JsNum.fin 0
      rw [hsc]
      simp [jsMulNat, jsRoundNum, jsRound]
      norm_num
    · show jsRoundNum (jsMulNat imgH (displayTransformJs imgW imgH wrapW wrapH).scale) = JsNum.fin 0
      rw [hsc]
      simp [jsMulNat, jsRoundNum, jsRound]
      norm_num
  · intro hiW hvW hother
    subst hiW
    have hd1 : jsDivNN wrapW 0 = JsNum.inf := by
      unfold jsDivNN; rw [if_pos rfl, if_neg (by omega)]
    have hsc : ∃ q : ℚ, (displayTransformJs 0 imgH wrapW wrapH).scale = JsNum.fin q := by
      show ∃ q : ℚ, jsMin2 (jsDivNN wrapW 0) (jsMin2 (jsDivNN wrapH imgH) (JsNum.fin 1)) = JsNum.fin q
      rw [hd1]
      rcases Nat.eq_zero_or_pos imgH with h0 | h0
      · subst h0
        have hvH : ¬ wrapH = 0 := by
          rcases hother with h | h
          · omega
          · omega
        have hd2 : jsDivNN wrapH 0 = JsNum.inf := by
          unfold jsDivNN; rw [if_pos rfl, if_neg hvH]
        exact ⟨1, by rw [hd2]; simp [jsMin2]⟩
      · have hd2 : jsDivNN wrapH imgH = JsNum.fin ((wrapH : ℚ) / imgH) := by
          unfold jsDivNN; rw [if_neg (by omega)]
        exact ⟨min ((wrapH : ℚ) / imgH) 1, by rw [hd2]; simp [jsMin2]⟩
    obtain ⟨q, hq⟩ := hsc
    show jsRoundNum (jsMulNat 0 (displayTransformJs 0 imgH wrapW wrapH).scale) = JsNum.fin 0
    rw [hq]
    simp [jsMulNat, jsRoundNum, jsRound]
    norm_num
  · intro hiH hvH hother
    subst hiH
    have hd2 : jsDivNN wrapH 0 = JsNum.inf := by
      unfold jsDivNN; rw [if_pos rfl, if_neg (by omega)]
    have hsc : ∃ q : ℚ, (displayTransformJs imgW 0 wrapW wrapH).scale = JsNum.fin q := by
      show ∃ q : ℚ, jsMin2 (jsDivNN wrapW imgW) (jsMin2 (jsDivNN wrapH 0) (JsNum.fin 1)) = JsNum.fin q
      rw [hd2]
      rcases Nat.eq_zero_or_pos imgW with h0 | h0
      · subst h0
        have hvW : ¬ wrapW = 0 := by
          rcases hother with h | h
          · omega
          · omega
        have hd1 : jsDivNN wrapW 0 = JsNum.inf := by
          unfold jsDivNN; rw [if_pos rfl, if_neg hvW]
        exact ⟨1, by rw [hd1]; simp [jsMin2]⟩
      · have hd1 : jsDivNN wrapW imgW = JsNum.fin ((wrapW : ℚ) / imgW) := by
          unfold jsDivNN; rw [if_neg (by omega)]
        exact ⟨min ((wrapW : ℚ) / imgW) 1, by rw [hd1]; simp [jsMin2]⟩
    obtain ⟨q, hq⟩ := hsc
    show jsRoundNum (jsMulNat 0 (displayTransformJs imgW 0 wrapW wrapH).scale) = JsNum.fin 0
    rw [hq]
    simp [jsMulNat, jsRoundNum, jsRound]
    norm_num

/-- Witness for the amended C8: a 5×5 image in a viewport with zero width. -/
theorem displayTransformJs_degenerate_witness :
    (displayTransformJs 5 5 0 7).drawW = JsNum.fin 0 ∧
    (displayTransformJs 5 5 0 7).drawH = JsNum.fin 0 :=
  (displayTransformJs_degenerate 5 5 0 7).1 (by decide) (by decide) (Or.inl rfl)

/-- C4: confirming with no painted mask (or no loaded image) makes no server
call, leaves the session state unchanged, and surfaces an error status. -/
theorem confirmClick_rejects_empty (s : EditorState)
    (h : s.hasMaskContent = false ∨ s.loadedImage = none) :
    confirmClick s =
      (s, { msg := "Paint a selection on the image first", kind := "error" }, none) := by
  rcases h with h | h
  · cases himg : s.loadedImage with
    | none => simp [confirmClick, himg]
    | some wh =>
      obtain ⟨w, hgt⟩ := wh
      simp [confirmClick, himg, h]
  · simp [confirmClick, h]

/-- Witness for C4: a loaded 1×1 image with an untouched mask. -/
theorem confirmClick_rejects_empty_witness :
    confirmClick
        { loadedImage := some (1, 1), wrapW := 1, wrapH := 1, maskBuf := fun _ => 0,
          hasMaskContent := false, originalFileName := "image" } =
      ({ loadedImage := some (1, 1), wrapW := 1, wrapH := 1, maskBuf := fun _ => 0,
         hasMaskContent := false, originalFileName := "image" },
       { msg := "Paint a selection on the image first", kind := "error" }, none) :=
  confirmClick_rejects_empty _ (Or.inl rfl)

/-- C9: rasterizing twice from the same unmodified state yields identical
native mask buffers, and neither run mutates the state. -/
theorem generateMaskRun_deterministic (s s₁ s₂ : EditorState)
    (o₁ o₂ : ℕ → ℕ)
    (h₁ : generateMaskRun s = Except.ok (o₁, s₁))
    (h₂ : generateMaskRun s₁ = Except.ok (o₂, s₂)) :
    o₁ = o₂ ∧ s₁ = s ∧ s₂ = s := by
  cases himg : s.loadedImage with
  | none =>
    unfold generateMaskRun at h₁
    rw [himg] at h₁
    exact absurd h₁ (by simp)
  | some wh =>
    obtain ⟨w, h⟩ := wh
    unfold generateMaskRun at h₁
    rw [himg] at h₁
    simp only [Except.ok.injEq, Prod.mk.injEq] at h₁
    obtain ⟨ho₁, hs₁⟩ := h₁
    subst hs₁
    unfold generateMaskRun at h₂
    rw [himg] at h₂
    simp only [Except.ok.injEq, Prod.mk.injEq] at h₂
    obtain ⟨ho₂, hs₂⟩ := h₂
    subst hs₂
    exact ⟨ho₁.symm.trans ho₂ |>.symm ▸ (ho₂ ▸ ho₁ ▸ rfl), rfl, rfl⟩

/-- Witness for C9: two runs on a concrete 1×1 session state. -/
theorem generateMaskRun_deterministic_witness :
    generateMask (fun _ => 0) 1 1 1 1 = generateMask (fun _ => 0) 1 1 1 1 ∧
    ({ loadedImage := some (1, 1), wrapW := 1, wrapH := 1, maskBuf := fun _ => 0,
       hasMaskContent := true, originalFileName := "image" } : EditorState) =
      { loadedImage := some (1, 1), wrapW := 1, wrapH := 1, maskBuf := fun _ => 0,
        hasMaskContent := true, originalFileName := "image" } :=
  let s : EditorState :=
    { loadedImage := some (1, 1), wrapW := 1, wrapH := 1, maskBuf := fun _ => 0,
      hasMaskContent := true, originalFileName := "image" }
  have h := generateMaskRun_deterministic s s s
    (generateMask (fun _ => 0) 1 1 1 1) (generateMask (fun _ => 0) 1 1 1 1) rfl rfl
  ⟨h.1, h.2.1⟩

/-- C5: a `maskDataUrl` that fails the pattern yields the structured error
result (`isError`, status `"error"`, empty `filePath`) and writes no file;
a matching one writes the decoded payload and returns status `"saved"`. -/
theorem saveMask_validation (outDir : String) (fromBase64 : String → List ℕ)
    (url : String) (name : Option String) (now : ℕ) :
    (dataUrlMatch url = none →
      saveMask outDir fromBase64 url name now =
        { mkdirs := [outDir], writes := [], status := "error", filePath := "",
          isError := true }) ∧
    (∀ ext payload, dataUrlMatch url = some (ext, payload) →
      (saveMask outDir fromBase64 url name now).status = "saved" ∧
      (saveMask outDir fromBase64 url name now).isError = false ∧
      (saveMask outDir fromBase64 url name now).writes =
        [((saveMask outDir fromBase64 url name now).filePath, fromBase64 payload)]) := by
  constructor
  · intro hmatch
    unfold saveMask
    rw [hmatch]
  · intro ext payload hmatch
    unfold saveMask
    rw [hmatch]
    exact ⟨rfl, rfl, rfl⟩

/-- Witness for C5: a rejected malformed input and an accepted one. -/
theorem saveMask_validation_witness :
    saveMask "output" (fun _ => []) "not-a-data-url" none 0 =
      { mkdirs := ["output"], writes := [], status := "error", filePath := "",
        isError := true } ∧
    (saveMask "output" (fun _ => []) "data:image/png;base64,AAAA" none 0).status
      = "saved" :=
  ⟨(saveMask_validation "output" (fun _ => []) "not-a-data-url" none 0).1 (by decide),
   ((saveMask_validation "output" (fun _ => []) "data:image/png;base64,AAAA" none 0).2
      "png" "AAAA" (by decide)).1⟩

lemma dropWhile_of_all_false {p : Char → Bool} {l : List Char}
    (h : ∀ c ∈ l, p c = false) : l.dropWhile p = l := by
  cases l with
  | nil => rfl
  | cons a t =>
    rw [List.dropWhile_cons, h a (List.mem_cons_self a t)]
    simp

lemma takeWhile_of_all_true {p : Char → Bool} {l : List Char}
    (h : ∀ c ∈ l, p c = true) : l.takeWhile p = l := by
  induction l with
  | nil => rfl
  | cons a t ih =>
    rw [List.takeWhile_cons, h a (List.mem_cons_self a t)]
    simp only [if_true]
    rw [ih fun c hc => h c (List.mem_cons_of_mem a hc)]

lemma takeWhile_sandwich {p : Char → Bool} (l₁ : List Char) (c : Char) (l₂ : List Char)
    (h₁ : ∀ x ∈ l₁, p x = true) (hc : p c = false) :
    (l₁ ++ c :: l₂).takeWhile p = l₁ := by
  induction l₁ with
  | nil =>
    rw [List.nil_append, List.takeWhile_cons, hc]
    simp
  | cons a t ih =>
    rw [List.cons_append, List.takeWhile_cons, h₁ a (List.mem_cons_self a t)]
    simp only [if_true]
    rw [ih fun x hx => h₁ x (List.mem_cons_of_mem a hx)]

/-- Node `path.parse(...).name` strips a final extension: for a base with no
dots or slashes and an extension with no dots or slashes,
`name(b ++ "." ++ e) = b`. -/
lemma nodeParseName_strip (b e : String) (hb : b.data ≠ [])
    (hbc : ∀ c ∈ b.data, c ≠ '.' ∧ c ≠ '/')
    (hec : ∀ c ∈ e.data, c ≠ '.' ∧ c ≠ '/') :
    nodeParseName (b ++ "." ++ e) = b := by
  have hdata : (b ++ "." ++ e).data = b.data ++ '.' :: e.data := by
    rw [String.data_append, String.data_append]
    have hdot : (".").data = ['.'] := rfl
    rw [hdot, List.append_assoc, List.singleton_append]
  have hslash : ∀ c ∈ b.data ++ '.' :: e.data, c ≠ '/' := by
    intro c hcmem
    rcases List.mem_append.mp hcmem with hcb | hce
    · exact (hbc c hcb).2
    · rcases List.mem_cons.mp hce with hdot | hcee
      · rw [hdot]; intro habs; exact absurd habs (by decide)
      · exact (hec c hcee).2
  have htrim : trailTrim (b.data ++ '.' :: e.data) = b.data ++ '.' :: e.data := by
    unfold trailTrim
    rw [dropWhile_of_all_false (fun c hc =>
      decide_eq_false (hslash c (List.mem_reverse.mp hc))), List.reverse_reverse]
  have hbase : baseNamePart (b.data ++ '.' :: e.data) = b.data ++ '.' :: e.data := by
    unfold baseNamePart
    rw [htrim, takeWhile_of_all_true (fun c hc =>
      decide_eq_true (hslash c (List.mem_reverse.mp hc))), List.reverse_reverse]
  have hrev : (b.data ++ '.' :: e.data).reverse = e.data.reverse ++ '.' :: b.data.reverse := by
    rw [List.reverse_append, List.reverse_cons, List.append_assoc, List.singleton_append]
  have hafter : (b.data ++ '.' :: e.data).reverse.takeWhile (fun c => c ≠ '.')
      = e.data.reverse := by
    rw [hrev]
    exact takeWhile_sandwich _ _ _
      (fun x hx => decide_eq_true (hec x (List.mem_reverse.mp hx)).1)
      (by decide)
  have hne2 : b.data ++ '.' :: e.data ≠ ['.', '.'] := by
    intro heq
    cases hbd : b.data with
    | nil => exact hb hbd
    | cons a t =>
      rw [hbd, List.cons_append] at heq
      have ha : a = '.' := (List.cons.injEq .. ▸ heq).1
      exact absurd ha (hbc a (hbd ▸ List.mem_cons_self a t)).1
  have hlen : (b.data ++ '.' :: e.data).length = b.data.length + 1 + e.data.length := by
    rw [List.length_append, List.length_cons]
    omega
  have hsplit : extSplitName (b.data ++ '.' :: e.data) = b.data := by
    unfold extSplitName
    rw [if_neg hne2]
    simp only [hafter, List.length_reverse]
    rw [if_neg (by rw [hlen]; omega), if_neg (by
      rw [hlen]
      intro habs
      have hb0 : b.data.length = 0 := by omega
      exact hb (List.length_eq_zero.mp hb0))]
    rw [hlen]
    have harith : b.data.length + 1 + e.data.length - e.data.length - 1 = b.data.length := by
      omega
    rw [harith]
    exact List.take_left b.data _
  unfold nodeParseName
  rw [hdata, hbase, hsplit]
  rfl

/-- C7 counterexample: with `originalFileName = ""` (present but empty) the
handler uses the `"mask"` fallback because the empty string is falsy in
JavaScript, so the file name is not `path.parse("").name ++ "_mask_..."`. -/
theorem saveMask_emptyName_cex :
    (saveMask "output" (fun _ => []) "data:image/png;base64,AAAA" (some "") 5).filePath
      = "output/mask_mask_5.png" ∧
    nodeParseName "" = "" ∧
    "output/mask_mask_5.png" ≠ "output/" ++ nodeParseName "" ++ "_mask_5.png" := by
  refine ⟨by decide, by decide, by decide⟩

/-- C7 (amended): every successful save writes
`<outDir>/<baseName>_mask_<now>.<ext>` with `baseName` the
extension-stripped `originalFileName`, the fixed fallback `"mask"` applying
when `originalFileName` is absent or empty; the output directory is created
on demand.  The last conjunct substantiates extension stripping. -/
theorem saveMask_naming (outDir : String) (fromBase64 : String → List ℕ)
    (url : String) (name : Option String) (now : ℕ) (ext payload : String)
    (h : dataUrlMatch url = some (ext, payload)) :
    ((saveMask outDir fromBase64 url name now).filePath =
      outDir ++ "/" ++
        ((match name with
          | some n => if n = "" then "mask" else nodeParseName n
          | none => "mask") ++ "_mask_" ++ toString now ++ "." ++ ext)) ∧
    (saveMask outDir fromBase64 url name now).mkdirs = [outDir] ∧
    (saveMask outDir fromBase64 url name now).status = "saved" ∧
    (∀ b e2 : String, b.data ≠ [] → (∀ c ∈ b.data, c ≠ '.' ∧ c ≠ '/') →
      (∀ c ∈ e2.data, c ≠ '.' ∧ c ≠ '/') → nodeParseName (b ++ "." ++ e2) = b) := by
  simp only [saveMask, h]
  exact ⟨trivial, trivial, trivial, nodeParseName_strip⟩

/-- Witness for the amended C7: saving with `originalFileName =
"photo.png"` produces `output/photo_mask_7.png`. -/
theorem saveMask_naming_witness :
    (saveMask "output" (fun _ => []) "data:image/png;base64,AAAA"
        (some "photo.png") 7).filePath = "output/photo_mask_7.png" := by
  have h := saveMask_naming "output" (fun _ => []) "data:image/png;base64,AAAA"
    (some "photo.png") 7 "png" "AAAA" (by decide)
  rw [h.1]
  decide

lemma applyAlphaLoop_length (m : List ℕ) (n : ℕ) (buf : List ℕ) :
    (applyAlphaLoop m n buf).length = buf.length := by
  induction n with
  | zero => rfl
  | succ k ih => simp only [applyAlphaLoop, List.length_set, ih]

lemma applyAlphaLoop_getD_alpha (m buf : List ℕ) (n i : ℕ) (hi : i < n)
    (hlen : i * 4 + 3 < buf.length) :
    (applyAlphaLoop m n buf).getD (i * 4 + 3) 0 = m.getD i 0 := by
  induction n with
  | zero => omega
  | succ k ih =>
    simp only [applyAlphaLoop]
    by_cases hik : i = k
    · subst hik
      rw [List.getD_eq_getElem?_getD,
        List.getElem?_set_eq_of_lt _ (by rw [applyAlphaLoop_length]; exact hlen)]
      rfl
    · have hlt : i < k := by omega
      rw [List.getD_eq_getElem?_getD, List.getElem?_set_ne (by omega : k * 4 + 3 ≠ i * 4 + 3),
        ← List.getD_eq_getElem?_getD]
      exact ih hlt

lemma applyAlphaLoop_getD_rgb (m buf : List ℕ) (n j : ℕ) (hj : j % 4 ≠ 3) :
    (applyAlphaLoop m n buf).getD j 0 = buf.getD j 0 := by
  induction n with
  | zero => rfl
  | succ k ih =>
    simp only [applyAlphaLoop]
    rw [List.getD_eq_getElem?_getD, List.getElem?_set_ne (by omega : k * 4 + 3 ≠ j),
      ← List.getD_eq_getElem?_getD]
    exact ih

/-- C3: the compositor sets the alpha byte of every pixel to the mask intensity
at that pixel and leaves all other bytes untouched; all-white masks give
alpha 255 everywhere and all-black masks alpha 0 everywhere. -/
theorem applyMask_alpha (mask img : List ℕ) (w h : ℕ) (hlen : img.length = w * h * 4) :
    (∀ i, i < w * h → (applyAlphaLoop mask (w * h) img).getD (i * 4 + 3) 0 = mask.getD i 0) ∧
    (∀ j, j % 4 ≠ 3 → (applyAlphaLoop mask (w * h) img).getD j 0 = img.getD j 0) ∧
    ((∀ i, i < w * h → mask.getD i 0 = 255) →
      ∀ i, i < w * h → (applyAlphaLoop mask (w * h) img).getD (i * 4 + 3) 0 = 255) ∧
    ((∀ i, i < w * h → mask.getD i 0 = 0) →
      ∀ i, i < w * h → (applyAlphaLoop mask (w * h) img).getD (i * 4 + 3) 0 = 0) := by
  have hidx : ∀ i, i < w * h → i * 4 + 3 < img.length := by
    intro i hi
    rw [hlen]
    have key : ∀ N : ℕ, i < N → i * 4 + 3 < N * 4 := by intro N hN; omega
    exact key (w * h) hi
  have halpha : ∀ i, i < w * h →
      (applyAlphaLoop mask (w * h) img).getD (i * 4 + 3) 0 = mask.getD i 0 :=
    fun i hi => applyAlphaLoop_getD_alpha mask img (w * h) i hi (hidx i hi)
  refine ⟨halpha, fun j hj => applyAlphaLoop_getD_rgb mask img (w * h) j hj, ?_, ?_⟩
  · intro hwht i hi
    rw [halpha i hi]
    exact hwht i hi
  · intro hblk i hi
    rw [halpha i hi]
    exact hblk i hi

/-- Witness for C3: a 2×1 RGBA image of ones with mask intensities
`[255, 7]`. -/
theorem applyMask_alpha_witness :
    (List.replicate 8 1).length = 2 * 1 * 4 ∧
    (applyAlphaLoop [255, 7] (2 * 1) (List.replicate 8 1)).getD (0 * 4 + 3) 0
      = [255, 7].getD 0 0 :=
  ⟨by decide, (applyMask_alpha [255, 7] (List.replicate 8 1) 2 1 (by decide)).1 0 (by decide)⟩

/-- C6: a decode failure of the image or the mask, and a raw buffer whose
size differs from `width*height*4`, each produce the structured error
result rather than an unhandled fault. -/
theorem applyMask_errors (env : SharpEnv) (image mask : String) :
    (env.meta (env.fromBase64 (stripDataUrlHead image)) = none →
      applyMaskCall env image mask = { isError := true, output := none }) ∧
    (∀ w h, env.meta (env.fromBase64 (stripDataUrlHead image)) = some (w, h) →
      env.rgba (env.fromBase64 (stripDataUrlHead image)) = none →
      applyMaskCall env image mask = { isError := true, output := none }) ∧
    (∀ w h imageData, env.meta (env.fromBase64 (stripDataUrlHead image)) = some (w, h) →
      env.rgba (env.fromBase64 (stripDataUrlHead image)) = some imageData →
      env.grayResized (env.fromBase64 (stripDataUrlHead mask)) w h = none →
      applyMaskCall env image mask = { isError := true, output := none }) ∧
    (∀ w h imageData maskData,
      env.meta (env.fromBase64 (stripDataUrlHead image)) = some (w, h) →
      env.rgba (env.fromBase64 (stripDataUrlHead image)) = some imageData →
      env.grayResized (env.fromBase64 (stripDataUrlHead mask)) w h = some maskData →
      imageData.length ≠ w * h * 4 →
      applyMaskCall env image mask = { isError := true, output := none }) := by
  refine ⟨?_, ?_, ?_, ?_⟩
  · intro hmeta
    simp only [applyMaskCall, applyMaskTool, applyMaskCore, hmeta]
  · intro w h hmeta hrgba
    simp only [applyMaskCall, applyMaskTool, applyMaskCore, hmeta, hrgba]
  · intro w h imageData hmeta hrgba hgray
    simp only [applyMaskCall, applyMaskTool, applyMaskCore, hmeta, hrgba, hgray]
  · intro w h imageData maskData hmeta hrgba hgray hsz
    simp only [applyMaskCall, applyMaskTool, applyMaskCore, hmeta, hrgba, hgray]
    rw [if_neg (by rw [applyAlphaLoop_length]; exact hsz)]

/-- Witness for C6: with an always-failing decoder the call errors
structurally. -/
theorem applyMask_errors_witness :
    failEnv.meta (failEnv.fromBase64 (stripDataUrlHead "img")) = none ∧
    applyMaskCall failEnv "img" "msk" = { isError := true, output := none } :=
  ⟨rfl, (applyMask_errors failEnv "img" "msk").1 rfl⟩

lemma stripHeadMatch_wrapped (e p : List Char) (he : e ≠ [])
    (hw : ∀ c ∈ e, isWordChar c = true) :
    stripHeadMatch ("data:image/".data ++ (e ++ (";base64,".data ++ p))) = some p := by
  simp only [stripHeadMatch]
  rw [List.take_left, if_pos rfl, List.drop_left]
  have hsand : List.takeWhile isWordChar
      (e ++ ([';', 'b', 'a', 's', 'e', '6', '4', ','] ++ p)) = e := by
    have hshape : ([';', 'b', 'a', 's', 'e', '6', '4', ','] : List Char) ++ p
        = ';' :: (['b', 'a', 's', 'e', '6', '4', ','] ++ p) := rfl
    rw [hshape]
    exact takeWhile_sandwich e ';' (['b', 'a', 's', 'e', '6', '4', ','] ++ p) hw (by decide)
  rw [hsand, List.drop_left]
  have htake8 : List.take ([';', 'b', 'a', 's', 'e', '6', '4', ','] : List Char).length
      ([';', 'b', 'a', 's', 'e', '6', '4', ','] ++ p) = [';', 'b', 'a', 's', 'e', '6', '4', ',']
    := List.take_left _ _
  have hdrop8 : List.drop ([';', 'b', 'a', 's', 'e', '6', '4', ','] : List Char).length
      ([';', 'b', 'a', 's', 'e', '6', '4', ','] ++ p) = p := List.drop_left _ _
  rw [if_pos ⟨fun h0 => he (List.length_eq_zero.mp h0), htake8⟩, hdrop8]

lemma stripHeadMatch_base64 (p : List Char) (hp : ∀ c ∈ p, isBase64Char c = true) :
    stripHeadMatch p = none := by
  have hnc : ¬ (List.take (['d', 'a', 't', 'a', ':', 'i', 'm', 'a', 'g', 'e', '/'] : List Char).length p
      = ['d', 'a', 't', 'a', ':', 'i', 'm', 'a', 'g', 'e', '/']) := by
    intro htake
    have hcol : (':' : Char) ∈ (['d', 'a', 't', 'a', ':', 'i', 'm', 'a', 'g', 'e', '/'] : List Char) := by
      decide
    rw [← htake] at hcol
    exact absurd (hp ':' (List.take_subset _ _ hcol)) (by decide)
  simp only [stripHeadMatch]
  rw [if_neg hnc]

lemma stripDataUrlHead_wrapped (e p : String) (he : e.data ≠ [])
    (hw : ∀ c ∈ e.data, isWordChar c = true) :
    stripDataUrlHead ("data:image/" ++ e ++ ";base64," ++ p) = p := by
  unfold stripDataUrlHead
  have hdata : ("data:image/" ++ e ++ ";base64," ++ p).data =
      ("data:image/").data ++ (e.data ++ ((";base64,").data ++ p.data)) := by
    rw [String.data_append, String.data_append, String.data_append,
      List.append_assoc, List.append_assoc]
  rw [hdata, stripHeadMatch_wrapped e.data p.data he hw]
  rfl

lemma stripDataUrlHead_base64 (p : String) (hp : ∀ c ∈ p.data, isBase64Char c = true) :
    stripDataUrlHead p = p := by
  unfold stripDataUrlHead
  rw [stripHeadMatch_base64 p.data hp]

/-- C10: the `apply-mask` result is unchanged by adding or removing a
`data:image/<ext>;base64,` prefix on either base64 input, since the prefix
is stripped before decoding. -/
theorem applyMask_prefixInsensitive (env : SharpEnv) (p q e1 e2 : String) (b1 b2 : Bool)
    (hp : ∀ c ∈ p.data, isBase64Char c = true) (hq : ∀ c ∈ q.data, isBase64Char c = true)
    (he1 : e1.data ≠ []) (hw1 : ∀ c ∈ e1.data, isWordChar c = true)
    (he2 : e2.data ≠ []) (hw2 : ∀ c ∈ e2.data, isWordChar c = true) :
    applyMaskTool env (cond b1 ("data:image/" ++ e1 ++ ";base64," ++ p) p)
        (cond b2 ("data:image/" ++ e2 ++ ";base64," ++ q) q)
      = applyMaskTool env p q := by
  unfold applyMaskTool
  cases b1 <;> cases b2 <;>
    simp only [cond_true, cond_false, stripDataUrlHead_base64 p hp,
      stripDataUrlHead_base64 q hq, stripDataUrlHead_wrapped e1 p he1 hw1,
      stripDataUrlHead_wrapped e2 q he2 hw2]

/-- Witness for C10: prefixing the image input with `data:image/png;base64,`
leaves the result unchanged. -/
theorem applyMask_prefixInsensitive_witness :
    applyMaskTool failEnv (cond true ("data:image/" ++ "png" ++ ";base64," ++ "AA") "AA")
        (cond false ("data:image/" ++ "png" ++ ";base64," ++ "BB") "BB")
      = applyMaskTool failEnv "AA" "BB" :=
  applyMask_prefixInsensitive failEnv "AA" "BB" "png" "png" true false
    (by decide) (by decide) (by decide) (by decide) (by decide) (by decide)

end MaskEditor
